import Mathlib

/-!
Verification of the batch balance-aggregation core of `src/index.js`.

The JavaScript source is shallowly embedded as follows.

* A single invocation of a wrapped remote operation either succeeds with a
  value, throws an error whose `reason` is the ERC721 nonexistent-token
  signature, or throws any other (transient) error.  The behaviour of an
  operation across successive attempts is a function `Nat → Outcome α`
  (attempt index ↦ what that invocation does).
* `withRetry fn retries` (src/index.js:57-74) is embedded as `withRetry`,
  returning the settled result of the promise together with the number of
  invocations of the operation and the total backoff delay slept.  The JS
  call sites pass `CONFIG.RETRY_DELAY` as the base delay; it is a parameter
  here.  The settled result of such a promise is a `RetryResult`:
  a fulfilled value, a fulfilled `null` (the nonexistent-token branch),
  a rejection (`exhausted`, the `throw error` path), or a fulfilled
  `undefined` (the fall-through when `retries = 0`).
* `chunk` (src/index.js:76-79) is embedded over lists.
* `getUniqueHolders` (src/index.js:92-136) and the balance loop of
  `calculateTotalETHForHolders` (src/index.js:138-189) are embedded with the
  per-item settled promise outcome supplied as an oracle
  (`ownerOf : Nat → RetryResult String`, `balanceOf : Option String → RetryResult Nat`).
  `await Promise.all` of a batch throws iff some member promise rejected;
  this is the `Except` error path `JsErr.rejected`.  A JS `Set` of strings is
  embedded as an insertion-ordered duplicate-free list whose elements are
  `Option String` (`some s` a string, `none` the JS value `undefined`, which
  the code inserts when a lookup settles to `undefined`, since
  `owner === null` is false for `undefined`).  `totalETH += BigInt(balance)`
  with `balance === undefined` throws a TypeError (`JsErr.typeError`).
  BigInt arithmetic is exact; balances are non-negative, so `Nat` is used.
* `ethers.formatEther` (src/index.js:181) is embedded as `formatEther`:
  quotient and 18-digit zero-padded remainder by 10^18, trailing zeros of the
  fractional part trimmed but at least one fractional digit kept.
-/

namespace EthBalanceCheck

/-- What one invocation of the wrapped operation does: succeed with a value,
throw with the ERC721 nonexistent-token `reason`, or throw any other
(transient) error. -/
inductive Outcome (α : Type) where
  | success (v : α)
  | nonexistent
  | transient
deriving DecidableEq, Repr

/-- Settled result of a promise produced by `withRetry`: a fulfilled value,
a fulfilled `null`, a rejection (retry budget exhausted: `throw error`), or a
fulfilled `undefined` (loop body never entered). -/
inductive RetryResult (α : Type) where
  | value (v : α)
  | absent
  | exhausted
  | undef
deriving DecidableEq, Repr

/-- `CONFIG.RETRY_ATTEMPTS` (src/index.js:11). -/
def RETRY_ATTEMPTS : Nat := 3

/-- `CONFIG.RETRY_DELAY` in milliseconds (src/index.js:12). -/
def RETRY_DELAY : Nat := 1000

/-- `CONFIG.OWNER_BATCH_SIZE` (src/index.js:9). -/
def OWNER_BATCH_SIZE : Nat := 150

/-- `CONFIG.BALANCE_BATCH_SIZE` (src/index.js:10). -/
def BALANCE_BATCH_SIZE : Nat := 75

/-- The `for (let i = 0; i < retries; i++)` loop of `withRetry`
(src/index.js:59-73), recursing on the number of remaining iterations;
`i` is the current zero-based attempt index.  Returns the settled result,
the number of invocations of the operation, and the total delay slept
(`CONFIG.RETRY_DELAY * 2 ** i` after each non-final transient failure). -/
def withRetryGo (beh : Nat → Outcome α) (baseDelay : Nat) : Nat → Nat → RetryResult α × Nat × Nat
  | _, 0 => (.undef, 0, 0)
  | i, remaining + 1 =>
    match beh i with
    | .success v => (.value v, 1, 0)
    | .nonexistent => (.absent, 1, 0)
    | .transient =>
      if remaining = 0 then
        (.exhausted, 1, 0)
      else
        let r := withRetryGo beh baseDelay (i + 1) remaining
        (r.1, r.2.1 + 1, r.2.2 + baseDelay * 2 ^ i)

/-- `withRetry(fn, retries)` (src/index.js:57-74). -/
def withRetry (beh : Nat → Outcome α) (retries : Nat) (baseDelay : Nat) :
    RetryResult α × Nat × Nat :=
  withRetryGo beh baseDelay 0 retries

/-- `chunk(arr, size)` (src/index.js:76-79):
`Array.from({length: Math.ceil(arr.length / size)}, (_, i) => arr.slice(i*size, i*size+size))`. -/
def chunk (arr : List α) (size : Nat) : List (List α) :=
  (List.range ((arr.length + size - 1) / size)).map fun i => (arr.drop (i * size)).take size

/-- Error escaping an `await` in the embedded pipelines: a batch promise
rejected (so `Promise.all` threw), or `BigInt(undefined)` threw a TypeError. -/
inductive JsErr where
  | rejected
  | typeError
deriving DecidableEq, Repr

/-- Whether a settled promise outcome is a rejection. -/
def isExhausted : RetryResult α → Bool
  | .exhausted => true
  | _ => false

/-- `uniqueHolders.add` via JS `Set` semantics: insertion-ordered,
no duplicate under strict equality. -/
def insertUnique [DecidableEq α] (s : List α) (x : α) : List α :=
  if x ∈ s then s else s ++ [x]

/-- One step of the `owners.forEach` body (src/index.js:110-116):
`null` increments `skippedTokens` (dropped here — it is only logged),
anything else is `uniqueHolders.add(owner)`; a fulfilled `undefined` is not
`=== null` and is added to the set. -/
def ownerStep (s : List (Option String)) : RetryResult String → List (Option String)
  | .value v => insertUnique s (some v)
  | .absent => s
  | .undef => insertUnique s none
  | .exhausted => s

/-- `await Promise.all(ownerPromises)` followed by the `owners.forEach`
(src/index.js:109-116): if any member promise rejected, the `await` throws;
otherwise the settled values are folded into the set. -/
def runOwnerBatch (rs : List (RetryResult String)) (s : List (Option String)) :
    Except JsErr (List (Option String)) :=
  if rs.any isExhausted then .error .rejected
  else .ok (rs.foldl ownerStep s)

/-- `Array.from({length: totalSupplyNum}, (_, i) => i + 1)` (src/index.js:98). -/
def tokenIds (totalSupply : Nat) : List Nat :=
  (List.range totalSupply).map (· + 1)

/-- `getUniqueHolders` (src/index.js:92-136), with the settled outcome of
`withRetry(() => this.contract.ownerOf(tokenId))` supplied as the oracle
`ownerOf`.  Returns `[...uniqueHolders]` (the code returns only this array;
`processedTokens`/`skippedTokens` are logged, not returned). -/
def getUniqueHolders (ownerOf : Nat → RetryResult String) (totalSupply batchSize : Nat) :
    Except JsErr (List (Option String)) :=
  (chunk (tokenIds totalSupply) batchSize).foldlM
    (fun s batch => runOwnerBatch (batch.map ownerOf) s) []

/-- One step of the `balances.forEach` body (src/index.js:155-161):
`null` increments `failedBalanceChecks` (only logged, total unchanged);
otherwise `totalETH += BigInt(balance)`, which throws a TypeError when the
settled value is `undefined`.  The `exhausted` arm is unreachable after the
rejection check of `runBalanceBatch`. -/
def balanceStepM (t : Nat) : RetryResult Nat → Except JsErr Nat
  | .value b => .ok (t + b)
  | .absent => .ok t
  | .undef => .error .typeError
  | .exhausted => .ok t

/-- `await Promise.all(balancePromises)` followed by the `balances.forEach`
(src/index.js:154-161). -/
def runBalanceBatch (rs : List (RetryResult Nat)) (t : Nat) : Except JsErr Nat :=
  if rs.any isExhausted then .error .rejected
  else rs.foldlM balanceStepM t

/-- The balance loop of `calculateTotalETHForHolders` (src/index.js:144-173),
with the settled outcome of `withRetry(() => provider.getBalance(address))`
supplied as the oracle `balanceOf`.  Returns the final `totalETH`. -/
def aggregateBalances (balanceOf : Option String → RetryResult Nat)
    (holders : List (Option String)) (batchSize : Nat) : Except JsErr Nat :=
  (chunk holders batchSize).foldlM
    (fun t batch => runBalanceBatch (batch.map balanceOf) t) 0

/-- `ethers.formatEther(totalETH)` (src/index.js:181): divide by `10^18`,
print the 18-digit zero-padded remainder after a decimal point, trimming
trailing zeros but keeping at least one fractional digit. -/
def formatEther (wei : Nat) : String :=
  let whole := wei / 10 ^ 18
  let frac := wei % 10 ^ 18
  let fracDigits := List.replicate (18 - (Nat.repr frac).length) '0' ++ (Nat.repr frac).toList
  let trimmed := (fracDigits.reverse.dropWhile (fun c => c = '0')).reverse
  Nat.repr whole ++ "." ++ (if trimmed.isEmpty then "0" else String.mk trimmed)

/-- `calculateTotalETHForHolders(epochTime)` (src/index.js:138-189):
resolve the unique holders, aggregate their balances, and return
`ethers.formatEther(totalETH)`.  The `epochTime` parameter is accepted and
never used, exactly as in the source. -/
def calculateTotalETHForHolders (ownerOf : Nat → RetryResult String)
    (balanceOf : Option String → RetryResult Nat)
    (totalSupply ownerBatchSize balanceBatchSize : Nat) (_epochTime : Int) :
    Except JsErr String := do
  let uniqueHolders ← getUniqueHolders ownerOf totalSupply ownerBatchSize
  let totalETH ← aggregateBalances balanceOf uniqueHolders balanceBatchSize
  pure (formatEther totalETH)

/-- Settled outcome of a lookup that only ever fulfils with a value or with
`null` (the regime in which the remote client answers every attempt with a
value or the nonexistent signature). -/
def liftOpt : Option α → RetryResult α
  | some v => .value v
  | none => .absent

/-- Total backoff delay of transient failures at attempt indices
`i, i+1, …, i+m-1`: `Σ baseDelay * 2 ^ j` over those indices. -/
def backoffFrom (d i : Nat) : Nat → Nat
  | 0 => 0
  | m + 1 => d * 2 ^ i + backoffFrom d (i + 1) m

/-- The effect of one settled balance on the accumulator when no TypeError is
thrown: a fulfilled value is added, anything else leaves the total unchanged. -/
def addStep (a : Nat) : RetryResult Nat → Nat
  | .value b => a + b
  | _ => a

theorem chunk_nil (size : Nat) : chunk ([] : List α) size = [] := by
  unfold chunk
  have h : (([] : List α).length + size - 1) / size = 0 := by
    cases size with
    | zero => simp
    | succ n =>
      simp only [List.length_nil, Nat.zero_add]
      exact Nat.div_eq_of_lt (by omega)
  rw [h]
  rfl

theorem chunk_cons (size : Nat) (hs : 0 < size) (arr : List α) (h : arr ≠ []) :
    chunk arr size = arr.take size :: chunk (arr.drop size) size := by
  have hn : 0 < arr.length := List.length_pos.mpr h
  have hcnt : (arr.length + size - 1) / size = ((arr.drop size).length + size - 1) / size + 1 := by
    rw [List.length_drop]
    rcases Nat.lt_or_ge size arr.length with hgt | hle
    · have e1 : arr.length + size - 1 = (arr.length - 1) + size := by omega
      have e2 : arr.length - size + size - 1 = arr.length - 1 := by omega
      rw [e1, e2, Nat.add_div_right _ hs]
    · have e2 : arr.length - size = 0 := by omega
      have h1 : (arr.length + size - 1) / size = 1 := by
        apply Nat.div_eq_of_lt_le
        · omega
        · omega
      have h0 : (0 + size - 1) / size = 0 := Nat.div_eq_of_lt (by omega)
      rw [e2, h1, h0]
  unfold chunk
  rw [hcnt, List.range_succ_eq_map, List.map_cons, List.map_map]
  congr 1
  · simp
  · apply List.map_congr_left
    intro i _
    simp only [Function.comp_apply]
    rw [List.drop_drop, Nat.succ_mul, Nat.add_comm (i * size) size]

theorem chunk_flatten_aux (size : Nat) (hs : 0 < size) :
    ∀ (fuel : Nat) (arr : List α), arr.length ≤ fuel → (chunk arr size).flatten = arr := by
  intro fuel
  induction fuel with
  | zero =>
    intro arr hle
    have harr : arr = [] := List.length_eq_zero.mp (by omega)
    subst harr
    rw [chunk_nil]
    rfl
  | succ n ih =>
    intro arr hle
    by_cases harr : arr = []
    · subst harr
      rw [chunk_nil]
      rfl
    · rw [chunk_cons size hs arr harr, List.flatten_cons,
        ih (arr.drop size) (by
          rw [List.length_drop]
          have := List.length_pos.mpr harr
          omega),
        List.take_append_drop]

theorem chunk_flatten (size : Nat) (hs : 0 < size) (arr : List α) :
    (chunk arr size).flatten = arr :=
  chunk_flatten_aux size hs arr.length arr le_rfl

theorem foldlM_ok_flatten {α β ε : Type} (step : β → α → β) (f : List α → β → Except ε β)
    (l : List (List α)) (hf : ∀ b ∈ l, ∀ acc, f b acc = .ok (b.foldl step acc)) :
    ∀ init : β, l.foldlM (fun acc b => f b acc) init = .ok (l.flatten.foldl step init) := by
  induction l with
  | nil => intro init; rfl
  | cons b t ih =>
    intro init
    rw [List.foldlM_cons, hf b (by simp) init]
    show t.foldlM (fun acc b => f b acc) (b.foldl step init) = _
    rw [ih (fun b' hb' acc => hf b' (by simp [hb']) acc), List.flatten_cons, List.foldl_append]

theorem runOwnerBatch_ok (rs : List (RetryResult String))
    (h : ∀ r ∈ rs, isExhausted r = false) (s : List (Option String)) :
    runOwnerBatch rs s = .ok (rs.foldl ownerStep s) := by
  have hany : rs.any isExhausted = false := by
    rw [List.any_eq_false]
    intro r hr
    simp [h r hr]
  simp [runOwnerBatch, hany]

theorem getUniqueHolders_ok (ownerOf : Nat → RetryResult String) (n size : Nat) (hs : 0 < size)
    (hne : ∀ t ∈ tokenIds n, isExhausted (ownerOf t) = false) :
    getUniqueHolders ownerOf n size
      = .ok ((tokenIds n).foldl (fun s t => ownerStep s (ownerOf t)) []) := by
  have hcol := foldlM_ok_flatten (fun s t => ownerStep s (ownerOf t))
      (fun batch acc => runOwnerBatch (batch.map ownerOf) acc)
      (chunk (tokenIds n) size) ?_ []
  · rw [chunk_flatten size hs] at hcol
    exact hcol
  · intro batch hb acc
    show runOwnerBatch (batch.map ownerOf) acc = _
    rw [runOwnerBatch_ok _ ?_ acc, List.foldl_map]
    intro r hr
    rcases List.mem_map.mp hr with ⟨t, ht, rfl⟩
    apply hne t
    have hmem : t ∈ (chunk (tokenIds n) size).flatten := List.mem_flatten.mpr ⟨batch, hb, ht⟩
    rwa [chunk_flatten size hs] at hmem

theorem foldlM_balance_ok (rs : List (RetryResult Nat)) (h : ∀ r ∈ rs, r ≠ .undef) :
    ∀ t : Nat, rs.foldlM balanceStepM t = .ok (rs.foldl addStep t) := by
  induction rs with
  | nil => intro t; rfl
  | cons r rs ih =>
    intro t
    rw [List.foldlM_cons]
    have ih' := ih (fun r' hr' => h r' (by simp [hr']))
    cases r with
    | value b =>
      show rs.foldlM balanceStepM (t + b) = _
      rw [ih' (t + b)]
      rfl
    | absent =>
      show rs.foldlM balanceStepM t = _
      rw [ih' t]
      rfl
    | exhausted =>
      show rs.foldlM balanceStepM t = _
      rw [ih' t]
      rfl
    | undef => exact absurd rfl (h _ (by simp))

theorem runBalanceBatch_ok (rs : List (RetryResult Nat))
    (h : ∀ r ∈ rs, isExhausted r = false ∧ r ≠ .undef) (t : Nat) :
    runBalanceBatch rs t = .ok (rs.foldl addStep t) := by
  have hany : rs.any isExhausted = false := by
    rw [List.any_eq_false]
    intro r hr
    simp [(h r hr).1]
  simp only [runBalanceBatch, hany, Bool.false_eq_true, if_false]
  exact foldlM_balance_ok rs (fun r hr => (h r hr).2) t

theorem aggregateBalances_ok (balanceOf : Option String → RetryResult Nat)
    (holders : List (Option String)) (size : Nat) (hs : 0 < size)
    (h : ∀ o ∈ holders, isExhausted (balanceOf o) = false ∧ balanceOf o ≠ .undef) :
    aggregateBalances balanceOf holders size
      = .ok (holders.foldl (fun t o => addStep t (balanceOf o)) 0) := by
  have hcol := foldlM_ok_flatten (fun t o => addStep t (balanceOf o))
      (fun batch t => runBalanceBatch (batch.map balanceOf) t)
      (chunk holders size) ?_ 0
  · rw [chunk_flatten size hs] at hcol
    exact hcol
  · intro batch hb t
    show runBalanceBatch (batch.map balanceOf) t = _
    rw [runBalanceBatch_ok _ ?_ t, List.foldl_map]
    intro r hr
    rcases List.mem_map.mp hr with ⟨o, ho, rfl⟩
    apply h o
    have hmem : o ∈ (chunk holders size).flatten := List.mem_flatten.mpr ⟨batch, hb, ho⟩
    rwa [chunk_flatten size hs] at hmem

theorem mem_insertUnique [DecidableEq α] (s : List α) (x y : α) :
    y ∈ insertUnique s x ↔ y ∈ s ∨ y = x := by
  unfold insertUnique
  split_ifs with hx
  · constructor
    · exact Or.inl
    · rintro (hy | rfl)
      · exact hy
      · exact hx
  · simp [List.mem_append]

theorem nodup_insertUnique [DecidableEq α] (s : List α) (x : α) (h : s.Nodup) :
    (insertUnique s x).Nodup := by
  unfold insertUnique
  split_ifs with hx
  · exact h
  · exact List.Nodup.append h (List.nodup_singleton x) (List.disjoint_singleton.mpr hx)

theorem ownerFold_nodup (f : Nat → RetryResult String) (items : List Nat) :
    ∀ acc : List (Option String), acc.Nodup →
      (items.foldl (fun s t => ownerStep s (f t)) acc).Nodup := by
  induction items with
  | nil => intro acc h; exact h
  | cons t ts ih =>
    intro acc h
    rw [List.foldl_cons]
    apply ih
    cases hft : f t with
    | value v => exact nodup_insertUnique acc (some v) h
    | absent => exact h
    | exhausted => exact h
    | undef => exact nodup_insertUnique acc none h

theorem liftOpt_not_exhausted (o : Option α) : isExhausted (liftOpt o) = false := by
  cases o <;> rfl

theorem liftOpt_ne_undef (o : Option α) : liftOpt o ≠ .undef := by
  cases o <;> simp [liftOpt]

theorem someMem_ownerStep (acc : List (Option String)) (o : Option String) (s : String) :
    some s ∈ ownerStep acc (liftOpt o) ↔ some s ∈ acc ∨ o = some s := by
  cases o with
  | none => simp [liftOpt, ownerStep]
  | some v =>
    show some s ∈ insertUnique acc (some v) ↔ _
    rw [mem_insertUnique]
    simp [eq_comm]

theorem someMem_ownerFold (lookup : Nat → Option String) (items : List Nat) :
    ∀ (acc : List (Option String)) (s : String),
      some s ∈ items.foldl (fun st t => ownerStep st (liftOpt (lookup t))) acc ↔
        some s ∈ acc ∨ ∃ t, t ∈ items ∧ lookup t = some s := by
  induction items with
  | nil => intro acc s; simp
  | cons t ts ih =>
    intro acc s
    rw [List.foldl_cons, ih, someMem_ownerStep]
    simp only [List.mem_cons, exists_eq_or_imp]
    tauto

theorem noneNotMem_ownerFold (lookup : Nat → Option String) (items : List Nat) :
    ∀ acc : List (Option String), none ∉ acc →
      none ∉ items.foldl (fun st t => ownerStep st (liftOpt (lookup t))) acc := by
  induction items with
  | nil => intro acc h; exact h
  | cons t ts ih =>
    intro acc h
    rw [List.foldl_cons]
    apply ih
    cases hlt : lookup t with
    | none => exact h
    | some v =>
      show none ∉ insertUnique acc (some v)
      intro hmem
      rcases (mem_insertUnique acc (some v) none).mp hmem with hc | hc
      · exact h hc
      · simp at hc

theorem balanceFold_sum (balanceOf : Option String → Option Nat) (owners : List (Option String)) :
    ∀ t : Nat, owners.foldl (fun a o => addStep a (liftOpt (balanceOf o))) t
      = t + (owners.filterMap balanceOf).sum := by
  induction owners with
  | nil => intro t; simp
  | cons o os ih =>
    intro t
    rw [List.foldl_cons]
    cases hb : balanceOf o with
    | none =>
      show os.foldl (fun a o => addStep a (liftOpt (balanceOf o)))
        (addStep t (liftOpt none)) = _
      rw [show addStep t (liftOpt (none : Option Nat)) = t from rfl, ih t]
      simp [List.filterMap_cons, hb]
    | some b =>
      show os.foldl (fun a o => addStep a (liftOpt (balanceOf o)))
        (addStep t (liftOpt (some b))) = _
      rw [show addStep t (liftOpt (some b)) = t + b from rfl, ih (t + b)]
      simp [List.filterMap_cons, hb]
      omega

theorem withRetryGo_nonexistent (beh : Nat → Outcome α) (d i remaining : Nat)
    (h : beh i = .nonexistent) (hr : 0 < remaining) :
    withRetryGo beh d i remaining = (.absent, 1, 0) := by
  cases remaining with
  | zero => omega
  | succ m =>
    unfold withRetryGo
    rw [h]

theorem withRetryGo_success (beh : Nat → Outcome α) (d : Nat) (v : α) :
    ∀ (k i remaining : Nat), k < remaining →
      (∀ j, j < k → beh (i + j) = .transient) → beh (i + k) = .success v →
      withRetryGo beh d i remaining = (.value v, k + 1, backoffFrom d i k) := by
  intro k
  induction k with
  | zero =>
    intro i remaining hk _ hsucc
    cases remaining with
    | zero => omega
    | succ m =>
      unfold withRetryGo
      rw [show beh i = .success v from hsucc]
      rfl
  | succ k ih =>
    intro i remaining hk htrans hsucc
    cases remaining with
    | zero => omega
    | succ m =>
      have hm : m ≠ 0 := by omega
      have htri : beh i = .transient := by
        have := htrans 0 (by omega)
        simpa using this
      unfold withRetryGo
      rw [htri]
      simp only [if_neg hm]
      rw [ih (i + 1) m (by omega)
        (fun j hj => by
          have := htrans (j + 1) (by omega)
          rwa [show i + (j + 1) = i + 1 + j by omega] at this)
        (by rwa [show i + 1 + k = i + (k + 1) by omega])]
      show (RetryResult.value v, k + 1 + 1, backoffFrom d (i + 1) k + d * 2 ^ i)
        = (RetryResult.value v, k + 1 + 1, backoffFrom d i (k + 1))
      rw [show backoffFrom d i (k + 1) = d * 2 ^ i + backoffFrom d (i + 1) k from rfl,
        Nat.add_comm (d * 2 ^ i) (backoffFrom d (i + 1) k)]

theorem withRetryGo_exhaust (beh : Nat → Outcome α) (d : Nat) :
    ∀ (remaining i : Nat), 0 < remaining →
      (∀ j, j < remaining → beh (i + j) = .transient) →
      withRetryGo beh d i remaining = (.exhausted, remaining, backoffFrom d i (remaining - 1)) := by
  intro remaining
  induction remaining with
  | zero => intro i h; omega
  | succ m ih =>
    intro i _ htrans
    have htri : beh i = .transient := by
      have := htrans 0 (by omega)
      simpa using this
    cases m with
    | zero =>
      unfold withRetryGo
      rw [htri]
      rfl
    | succ m' =>
      unfold withRetryGo
      rw [htri]
      simp only [if_neg (Nat.succ_ne_zero m')]
      rw [ih (i + 1) (by omega)
        (fun j hj => by
          have := htrans (j + 1) (by omega)
          rwa [show i + (j + 1) = i + 1 + j by omega] at this)]
      show (RetryResult.exhausted, m' + 1 + 1, backoffFrom d (i + 1) (m' + 1 - 1) + d * 2 ^ i)
        = (RetryResult.exhausted, m' + 2, backoffFrom d i (m' + 2 - 1))
      rw [show m' + 1 - 1 = m' from rfl, show m' + 2 - 1 = m' + 1 from rfl,
        show backoffFrom d i (m' + 1) = d * 2 ^ i + backoffFrom d (i + 1) m' from rfl,
        Nat.add_comm (d * 2 ^ i) (backoffFrom d (i + 1) m')]

theorem exceptOk_bind {ε α β : Type} (a : α) (f : α → Except ε β) :
    (Except.ok a >>= f) = f a := rfl

theorem calculate_ok (lookup : Nat → Option String) (balanceOf : Option String → Option Nat)
    (n ob bb : Nat) (h1 : 0 < ob) (h2 : 0 < bb) (e : Int) :
    calculateTotalETHForHolders (fun t => liftOpt (lookup t)) (fun o => liftOpt (balanceOf o))
        n ob bb e
      = .ok (formatEther
          ((((tokenIds n).foldl (fun s t => ownerStep s (liftOpt (lookup t)))
              []).filterMap balanceOf).sum)) := by
  unfold calculateTotalETHForHolders
  rw [getUniqueHolders_ok _ n ob h1 (fun t _ => liftOpt_not_exhausted _)]
  simp only [exceptOk_bind]
  rw [aggregateBalances_ok _ _ bb h2 (fun o _ => ⟨liftOpt_not_exhausted _, liftOpt_ne_undef _⟩)]
  simp only [exceptOk_bind]
  rw [balanceFold_sum balanceOf _ 0]
  simp only [Nat.zero_add]
  rfl

/-- C1: the specification says a balance lookup that exhausts its retry budget
is counted as failed, contributes zero, and the run still returns a total.
The code instead rethrows the last error from `withRetry` (src/index.js:69),
so the corresponding promise rejects, `await Promise.all` throws
(src/index.js:154), and `calculateTotalETHForHolders` rejects: no total is
produced.  Evaluated here at the failing input: two tokens owned by "A" and
"B", where the balance lookup for "B" is transient on all
`CONFIG.RETRY_ATTEMPTS` attempts. -/
theorem balance_retry_exhausted_aborts_run :
    (withRetry (fun _ => Outcome.transient) RETRY_ATTEMPTS RETRY_DELAY).1
        = (RetryResult.exhausted : RetryResult Nat) ∧
    calculateTotalETHForHolders
        (fun t => if t = 1 then .value "A" else .value "B")
        (fun o => if o = some "A" then .value 10
          else (withRetry (fun _ => Outcome.transient) RETRY_ATTEMPTS RETRY_DELAY).1)
        2 OWNER_BATCH_SIZE BALANCE_BATCH_SIZE 1672531200
      = .error .rejected :=
  ⟨rfl, rfl⟩

/-- C2 counterexample: the claim says the core returns the raw
arbitrary-precision integer total plus run statistics.  At a run whose exact
total is 1500000000000000000 wei, the code returns the ether-scaled decimal
string "1.5" (`ethers.formatEther`, src/index.js:181-188), which is not the
decimal representation of the raw integer total, and the returned value
carries no statistics. -/
theorem core_returns_scaled_string_cex :
    calculateTotalETHForHolders (fun _ => .value "A") (fun _ => .value 1500000000000000000)
        1 OWNER_BATCH_SIZE BALANCE_BATCH_SIZE 1672531200
      = .ok "1.5" ∧ ("1.5" : String) ≠ Nat.repr 1500000000000000000 :=
  ⟨rfl, by decide⟩

/-- C2 as amended: `calculateTotalETHForHolders` returns the ether-scaled
decimal string `formatEther` of the exact integer sum of the balances of the
resolved unique holders; the human-scaling conversion happens inside the core
and run statistics are only logged, not returned. -/
theorem core_returns_formatEther_of_sum (lookup : Nat → Option String)
    (balanceOf : Option String → Option Nat) (n ob bb : Nat)
    (h1 : 0 < ob) (h2 : 0 < bb) (e : Int) :
    ∃ holders : List (Option String),
      getUniqueHolders (fun t => liftOpt (lookup t)) n ob = .ok holders ∧
      calculateTotalETHForHolders (fun t => liftOpt (lookup t)) (fun o => liftOpt (balanceOf o))
          n ob bb e
        = .ok (formatEther ((holders.filterMap balanceOf).sum)) :=
  ⟨_, getUniqueHolders_ok _ n ob h1 (fun _ _ => liftOpt_not_exhausted _),
    calculate_ok lookup balanceOf n ob bb h1 h2 e⟩

/-- Witness for the amended C2 at a concrete input. -/
theorem core_returns_formatEther_of_sum_witness :
    ∃ holders : List (Option String),
      getUniqueHolders (fun _ => liftOpt (some "A")) 1 150 = .ok holders ∧
      calculateTotalETHForHolders (fun _ => liftOpt (some "A")) (fun _ => liftOpt (some 7))
          1 150 75 0
        = .ok (formatEther ((holders.filterMap (fun _ => some 7)).sum)) :=
  core_returns_formatEther_of_sum (fun _ => some "A") (fun _ => some 7) 1 150 75
    (by decide) (by decide) 0

/-- C3: the retry wrapper contract, for any retry budget of at least one
attempt and any base delay.  An operation that fails transiently exactly
`k < retries` times then succeeds yields the successful value (after `k + 1`
invocations and the accumulated backoff); an operation whose first attempt
reports the nonexistent-entity signature yields `Absent` (`null`) after
exactly one invocation with zero delay; an operation transient on all
`retries` attempts yields `RetryExhausted` (the promise rejects) after
exactly `retries` invocations. -/
theorem withRetry_contract (retries d : Nat) (hr : 1 ≤ retries) :
    (∀ (beh : Nat → Outcome Nat) (k v : Nat), k < retries →
        (∀ j, j < k → beh j = .transient) → beh k = .success v →
        withRetry beh retries d = (.value v, k + 1, backoffFrom d 0 k)) ∧
    (∀ beh : Nat → Outcome Nat, beh 0 = .nonexistent →
        withRetry beh retries d = (.absent, 1, 0)) ∧
    (∀ beh : Nat → Outcome Nat, (∀ j, j < retries → beh j = .transient) →
        withRetry beh retries d = (.exhausted, retries, backoffFrom d 0 (retries - 1))) := by
  refine ⟨?_, ?_, ?_⟩
  · intro beh k v hk htr hsucc
    exact withRetryGo_success beh d v k 0 retries hk
      (fun j hj => by simpa using htr j hj) (by simpa using hsucc)
  · intro beh h0
    exact withRetryGo_nonexistent beh d 0 retries h0 (by omega)
  · intro beh htr
    exact withRetryGo_exhaust beh d retries 0 (by omega) (fun j hj => by simpa using htr j hj)

/-- Witness for C3: two transient failures then success, with a budget of 3
attempts and base delay 1000, returns the value after 3 invocations having
slept 1000 + 2000 ms. -/
theorem withRetry_contract_witness :
    withRetry (fun j => if j < 2 then Outcome.transient else Outcome.success 7) 3 1000
      = (.value 7, 3, 3000) :=
  (withRetry_contract 3 1000 (by omega)).1
    (fun j => if j < 2 then Outcome.transient else Outcome.success 7) 2 7 (by omega)
    (fun j hj => if_pos hj) rfl

/-- C4: for every reported collection size `n`, the work-item sequence is
exactly the 1-based identifiers `1..n`, and when every lookup settles to a
value or `Absent`, `getUniqueHolders` returns exactly the owner keys of the
non-`Absent` items, with no duplicates. -/
theorem getUniqueHolders_spec (lookup : Nat → Option String) (n batchSize : Nat)
    (hs : 0 < batchSize) :
    tokenIds n = List.range' 1 n ∧
    ∃ holders : List (Option String),
      getUniqueHolders (fun t => liftOpt (lookup t)) n batchSize = .ok holders ∧
      holders.Nodup ∧
      (∀ s : String, some s ∈ holders ↔ ∃ t, t ∈ List.range' 1 n ∧ lookup t = some s) ∧
      none ∉ holders := by
  have htok : tokenIds n = List.range' 1 n := by
    rw [List.range'_eq_map_range]
    unfold tokenIds
    apply List.map_congr_left
    intro i _
    omega
  refine ⟨htok, (tokenIds n).foldl (fun s t => ownerStep s (liftOpt (lookup t))) [],
    getUniqueHolders_ok _ n batchSize hs (fun t _ => liftOpt_not_exhausted _), ?_, ?_, ?_⟩
  · exact ownerFold_nodup _ (tokenIds n) [] List.nodup_nil
  · intro s
    rw [someMem_ownerFold lookup (tokenIds n) [] s, htok]
    simp
  · exact noneNotMem_ownerFold lookup (tokenIds n) [] (by simp)

/-- Witness for C4: size 3, token 2 absent, tokens 1 and 3 owned by "A". -/
theorem getUniqueHolders_spec_witness :
    0 < 2 ∧
      (tokenIds 3 = List.range' 1 3 ∧
        ∃ holders : List (Option String),
          getUniqueHolders (fun t => liftOpt (if t = 2 then none else some "A")) 3 2
              = .ok holders ∧
          holders.Nodup ∧
          (∀ s : String, some s ∈ holders ↔
            ∃ t, t ∈ List.range' 1 3 ∧ (if t = 2 then none else some "A") = some s) ∧
          none ∉ holders) :=
  ⟨by decide, getUniqueHolders_spec (fun t => if t = 2 then none else some "A") 3 2 (by decide)⟩

/-- C5: for every owner list and positive batch size, when every balance
lookup settles to a value or to `null`, the aggregate total is the exact
arbitrary-precision integer sum of the successfully looked-up balances
(owners whose lookup did not yield a value contribute nothing), with no
intermediate rounding. -/
theorem aggregateBalances_exact_sum (balanceOf : Option String → Option Nat)
    (owners : List (Option String)) (batchSize : Nat) (hs : 0 < batchSize) :
    aggregateBalances (fun o => liftOpt (balanceOf o)) owners batchSize
      = .ok ((owners.filterMap balanceOf).sum) := by
  rw [aggregateBalances_ok _ owners batchSize hs
    (fun o _ => ⟨liftOpt_not_exhausted _, liftOpt_ne_undef _⟩)]
  rw [balanceFold_sum balanceOf owners 0]
  simp

/-- Witness for C5: three owners, one failing, batch size 2. -/
theorem aggregateBalances_exact_sum_witness :
    0 < 2 ∧
      aggregateBalances (fun o => liftOpt (if o = some "B" then none else some 5))
          [some "A", some "B", some "C"] 2
        = .ok 10 :=
  ⟨by decide, aggregateBalances_exact_sum (fun o => if o = some "B" then none else some 5)
    [some "A", some "B", some "C"] 2 (by decide)⟩

/-- C6: batching is transparent to results.  `chunk` partitions any item list
into consecutive slices whose concatenation is the original list, and for
fixed per-item lookup outcomes every choice of positive batch sizes yields
the identical owner set, identical aggregate total, and identical final run
result. -/
theorem batching_transparent (lookup : Nat → Option String)
    (balanceOf : Option String → Option Nat) (n ob1 bb1 ob2 bb2 : Nat)
    (h1 : 0 < ob1) (h2 : 0 < bb1) (h3 : 0 < ob2) (h4 : 0 < bb2) (e : Int) :
    (∀ items : List Nat, (chunk items ob1).flatten = items) ∧
    getUniqueHolders (fun t => liftOpt (lookup t)) n ob1
      = getUniqueHolders (fun t => liftOpt (lookup t)) n ob2 ∧
    (∀ owners : List (Option String),
      aggregateBalances (fun o => liftOpt (balanceOf o)) owners bb1
        = aggregateBalances (fun o => liftOpt (balanceOf o)) owners bb2) ∧
    calculateTotalETHForHolders (fun t => liftOpt (lookup t)) (fun o => liftOpt (balanceOf o))
        n ob1 bb1 e
      = calculateTotalETHForHolders (fun t => liftOpt (lookup t)) (fun o => liftOpt (balanceOf o))
        n ob2 bb2 e := by
  refine ⟨fun items => chunk_flatten ob1 h1 items, ?_, ?_, ?_⟩
  · rw [getUniqueHolders_ok _ n ob1 h1 (fun t _ => liftOpt_not_exhausted _),
      getUniqueHolders_ok _ n ob2 h3 (fun t _ => liftOpt_not_exhausted _)]
  · intro owners
    rw [aggregateBalances_ok _ owners bb1 h2
        (fun o _ => ⟨liftOpt_not_exhausted _, liftOpt_ne_undef _⟩),
      aggregateBalances_ok _ owners bb2 h4
        (fun o _ => ⟨liftOpt_not_exhausted _, liftOpt_ne_undef _⟩)]
  · rw [calculate_ok lookup balanceOf n ob1 bb1 h1 h2 e,
      calculate_ok lookup balanceOf n ob2 bb2 h3 h4 e]

/-- Witness for C6: the same 5-token input resolved with owner batch sizes 1
and 7 yields the same owner set. -/
theorem batching_transparent_witness :
    getUniqueHolders (fun _ => liftOpt (some "A")) 5 1
      = getUniqueHolders (fun _ => liftOpt (some "A")) 5 7 :=
  (batching_transparent (fun _ => some "A") (fun _ => some 1) 5 1 1 7 7
    (by decide) (by decide) (by decide) (by decide) 0).2.1

/-- C7 counterexample: the claim says owner keys are case-normalized, so two
lookups returning the same key differing only in letter case produce a single
entry.  The code adds the raw strings to a `Set` (src/index.js:114), so
"0xAB" and "0xab" produce two distinct entries. -/
theorem ownerSet_case_sensitive_cex :
    getUniqueHolders (fun t => if t = 1 then .value "0xAB" else .value "0xab")
        2 OWNER_BATCH_SIZE
      = .ok [some "0xAB", some "0xab"] ∧
    ([some "0xAB", some "0xab"] : List (Option String)).length = 2 :=
  ⟨rfl, rfl⟩

/-- C7 as amended: owner keys are identified by exact (case-sensitive) string
identity; after every insertion the set holds no duplicates under that exact
identity, while keys differing only in letter case form distinct entries. -/
theorem ownerSet_nodup_exact_identity (lookup : Nat → Option String) (n batchSize : Nat)
    (hs : 0 < batchSize) (holders : List (Option String))
    (hok : getUniqueHolders (fun t => liftOpt (lookup t)) n batchSize = .ok holders) :
    holders.Nodup := by
  rw [getUniqueHolders_ok _ n batchSize hs (fun t _ => liftOpt_not_exhausted _)] at hok
  cases hok
  exact ownerFold_nodup _ (tokenIds n) [] List.nodup_nil

/-- Witness for the amended C7: the case-distinct output of the
counterexample input is duplicate-free under exact string identity. -/
theorem ownerSet_nodup_exact_identity_witness :
    ([some "0xAB", some "0xab"] : List (Option String)).Nodup :=
  ownerSet_nodup_exact_identity (fun t => if t = 1 then some "0xAB" else some "0xab") 2 150
    (by decide) [some "0xAB", some "0xab"] rfl

/-- C8: the result of `calculateTotalETHForHolders` is independent of the
epoch timestamp argument — the parameter is accepted (src/index.js:138,
passed at src/index.js:199) but never used. -/
theorem epochTime_independent (ownerOf : Nat → RetryResult String)
    (balanceOf : Option String → RetryResult Nat) (n ob bb : Nat) (e1 e2 : Int) :
    calculateTotalETHForHolders ownerOf balanceOf n ob bb e1
      = calculateTotalETHForHolders ownerOf balanceOf n ob bb e2 :=
  rfl

/-- C10: `withRetry` with a retry budget of zero returns `undefined` without
ever invoking the wrapped operation (the invocation count is 0 and the result
is independent of the operation's behaviour), and `undefined` is none of a
resolved value, the `Absent` marker `null`, or a rejection; the owner
pipeline's `owner === null` test then treats it as a resolved value and
inserts it into the owner set. -/
theorem withRetry_zero_budget_undef :
    (∀ (beh : Nat → Outcome Nat) (d : Nat), withRetry beh 0 d = (.undef, 0, 0)) ∧
    (∀ v : Nat, (RetryResult.undef : RetryResult Nat) ≠ .value v) ∧
    ((RetryResult.undef : RetryResult Nat) ≠ .absent) ∧
    ((RetryResult.undef : RetryResult Nat) ≠ .exhausted) ∧
    getUniqueHolders (fun _ => .undef) 1 OWNER_BATCH_SIZE = .ok [none] :=
  ⟨fun _ _ => rfl, fun _ h => RetryResult.noConfusion h, fun h => RetryResult.noConfusion h,
    fun h => RetryResult.noConfusion h, rfl⟩

end EthBalanceCheck
